import Mathlib

/-!
Verification of the circuit-layout collision resolver
(generate_circuit/collision_detector.py) and the layout recorder
(generate_circuit/position_recorder.py).

Geometry is modelled over the real numbers: positions and sizes are real,
and the search offsets use the exact cosine and sine of the degree angles
that the source computes with math.cos / math.sin / math.radians.
Dictionaries keyed by component id are modelled as association lists in
insertion order, which is how Python dicts iterate.
-/

namespace CircuitLayout

/-- Axis-aligned bounding box, as built by the source's bbox dictionaries.
The source dictionaries sometimes also carry width/height entries; those are
never read by any collision predicate, so they are not part of this record. -/
structure BBox where
  x_min : ℝ
  x_max : ℝ
  y_min : ℝ
  y_max : ℝ

/-- The four sides a chip pin can sit on (strings 'left', 'right', 'top',
'bot' in the source). -/
inductive Side where
  | left
  | right
  | top
  | bot
deriving DecidableEq

/-- One entry of component_info: type, label, width, height and the list of
chip pin numbers the component connects to. -/
structure Component where
  type : String
  label : String
  width : ℝ
  height : ℝ
  connected_pins : List ℕ

/-- One entry of adjusted_positions, as written by
detect_and_resolve_collisions. -/
structure PlacedInfo where
  position : ℝ × ℝ
  type : String
  label : String
  width : ℝ
  height : ℝ
  connected_pins : List ℕ
  bbox : BBox

/-- CollisionDetector._check_bbox_collision: two boxes with a safety margin
overlap unless one is strictly beyond the other on some axis.  The source
default for margin is 1.0; call sites here always pass the margin
explicitly. -/
def check_bbox_collision (bbox1 bbox2 : BBox) (margin : ℝ) : Prop :=
  ¬ (bbox1.x_max + margin < bbox2.x_min ∨
     bbox2.x_max + margin < bbox1.x_min ∨
     bbox1.y_max + margin < bbox2.y_min ∨
     bbox2.y_max + margin < bbox1.y_min)

/-- CollisionDetector._check_collision_with_chip: expand the chip box by the
margin (source default 2.0, passed explicitly here) on every side, then run
the box test with margin 0. -/
def check_collision_with_chip (chip : BBox) (bbox : BBox) (margin : ℝ) : Prop :=
  check_bbox_collision bbox
    ⟨chip.x_min - margin, chip.x_max + margin,
     chip.y_min - margin, chip.y_max + margin⟩ 0

/-- CollisionDetector._create_bbox_from_position. -/
noncomputable def create_bbox_from_position (x y width height : ℝ) : BBox :=
  ⟨x - width / 2, x + width / 2, y - height / 2, y + height / 2⟩

/-- CollisionDetector._get_pin_position_on_chip: the hard-coded 555 pin
table; unknown pin numbers default to (right, 0.0). -/
noncomputable def get_pin_position_on_chip (pin : ℕ) : Side × ℝ :=
  match pin with
  | 1 => (Side.bot, 0.0)
  | 2 => (Side.left, 0.5)
  | 3 => (Side.right, 0.0)
  | 4 => (Side.top, -0.5)
  | 5 => (Side.right, 1.0)
  | 6 => (Side.left, -0.5)
  | 7 => (Side.left, 1.0)
  | 8 => (Side.top, 0.5)
  | 9 => (Side.right, -1.0)
  | _ => (Side.right, 0.0)

/-- The per-pin placement target inside _calculate_optimal_position: which
point a component connected to this side/offset should sit at.  (The
source's trailing else arm is unreachable: the pin table only ever yields
the four sides.) -/
noncomputable def side_target (side : Side) (offset : ℝ) : ℝ × ℝ :=
  match side with
  | Side.left => (-3.0, offset * 1.5)
  | Side.right => (3.0, offset * 1.5)
  | Side.top => (offset * 1.5, 2.5)
  | Side.bot => (offset * 1.5, -2.5)

/-- CollisionDetector._calculate_optimal_position: (2,2) when no pins are
connected, otherwise the running sum over connected pins of per-pin targets
divided by the number of connected pins. -/
noncomputable def calculate_optimal_position (c : Component) : ℝ × ℝ :=
  if c.connected_pins = [] then (2.0, 2.0)
  else
    let totals := c.connected_pins.foldl
      (fun acc pin =>
        let sc := get_pin_position_on_chip pin
        let xy := side_target sc.1 sc.2
        (acc.1 + xy.1, acc.2 + xy.2))
      ((0 : ℝ), (0 : ℝ))
    (totals.1 / c.connected_pins.length, totals.2 / c.connected_pins.length)

/-- The probe radius computed at attempt index a of the search loop
(search_radius is the constant 1.0 in the source). -/
noncomputable def attempt_radius (a : ℕ) : ℝ :=
  if a < 8 then 1.0 else 1.0 * (1 + ((a - 8 : ℕ) : ℝ) * 0.5)

/-- The probe angle, in degrees, computed at attempt index a of the search
loop. -/
noncomputable def attempt_angle (a : ℕ) : ℝ :=
  if a < 8 then ((a * 45 : ℕ) : ℝ) else (((a * 30) % 360 : ℕ) : ℝ)

/-- The (x_offset, y_offset) pair the loop adds to the fixed anchor after a
collision at attempt index a. -/
noncomputable def attempt_offset (a : ℕ) : ℝ × ℝ :=
  (attempt_radius a * Real.cos (attempt_angle a * Real.pi / 180),
   attempt_radius a * Real.sin (attempt_angle a * Real.pi / 180))

/-- The candidate position tested at iteration k of the search loop: the
anchor itself at k = 0, afterwards the anchor plus the offset computed at
the previous iteration's attempt index. -/
noncomputable def candidate (anchor : ℝ × ℝ) : ℕ → ℝ × ℝ
  | 0 => anchor
  | k + 1 => (anchor.1 + (attempt_offset k).1, anchor.2 + (attempt_offset k).2)

/-- The collision test performed on one candidate box inside
_adjust_position_to_avoid_collision: against the chip (margin 2.0, the
source default), then against every already placed component except an
entry carrying the component's own id, rebuilt from its stored position and
size, with the default margin 1.0.  The source short-circuits; the
disjunction is its truth value. -/
def has_collision (chip : BBox) (placed : List (String × PlacedInfo))
    (selfId : String) (test_bbox : BBox) : Prop :=
  check_collision_with_chip chip test_bbox 2 ∨
    ∃ p ∈ placed, p.1 ≠ selfId ∧
      check_bbox_collision test_bbox
        (create_bbox_from_position p.2.position.1 p.2.position.2
          p.2.width p.2.height) 1

/-- The test_bbox built for a component at a candidate position inside the
search loop. -/
noncomputable def test_box (comp : Component) (pos : ℝ × ℝ) : BBox :=
  create_bbox_from_position pos.1 pos.2 comp.width comp.height

open Classical in
/-- The attempt loop of _adjust_position_to_avoid_collision: starting at
iteration `a` with `fuel` iterations left (the source runs attempts 0..49,
i.e. fuel 50 from attempt 0), return the first collision-free candidate, or
none when the fuel runs out. -/
noncomputable def adjust_search (chip : BBox) (placed : List (String × PlacedInfo))
    (selfId : String) (comp : Component) (anchor : ℝ × ℝ) :
    ℕ → ℕ → Option (ℝ × ℝ)
  | _, 0 => none
  | a, fuel + 1 =>
    if has_collision chip placed selfId (test_box comp (candidate anchor a)) then
      adjust_search chip placed selfId comp anchor (a + 1) fuel
    else
      some (candidate anchor a)

/-- The far placement used when all 50 attempts collide, keyed off the first
connected pin's side; (10, 6) when the component has no connected pins. -/
noncomputable def far_position (c : Component) : ℝ × ℝ :=
  match c.connected_pins with
  | [] => (10.0, 6.0)
  | pin :: _ =>
    let sc := get_pin_position_on_chip pin
    match sc.1 with
    | Side.left => (-10.0, sc.2 * 3.0)
    | Side.right => (10.0, sc.2 * 3.0)
    | Side.top => (sc.2 * 3.0, 8.0)
    | Side.bot => (sc.2 * 3.0, -8.0)

/-- CollisionDetector._adjust_position_to_avoid_collision: run the search
from the ideal position (which is also the fixed anchor, since the
estimator is pure and is simply recomputed at attempt 0), fall back to the
far placement when every attempt collides. -/
noncomputable def adjust_position_to_avoid_collision (chip : BBox)
    (placed : List (String × PlacedInfo)) (selfId : String)
    (comp : Component) : ℝ × ℝ :=
  match adjust_search chip placed selfId comp
      (calculate_optimal_position comp) 0 50 with
  | some pos => pos
  | none => far_position comp

/-- The sort key of detect_and_resolve_collisions: the number of connected
pins. -/
def comp_key (p : String × Component) : ℕ :=
  p.2.connected_pins.length

/-- One step of a stable descending insertion sort on the key: the new
element passes every element with a key at least as large, so later input
elements land after earlier ones of equal key — exactly the guarantee of
Python's stable sorted(..., reverse=True). -/
def insert_desc (a : String × Component) :
    List (String × Component) → List (String × Component)
  | [] => [a]
  | b :: t => if comp_key b < comp_key a then a :: b :: t else b :: insert_desc a t

/-- The processing order of detect_and_resolve_collisions: components sorted
by number of connected pins, descending, ties keeping input order (a stable
sort, modelled by insertion). -/
def sort_components (l : List (String × Component)) :
    List (String × Component) :=
  l.foldl (fun acc a => insert_desc a acc) []

/-- The adjusted_positions record stored for a component placed at pos. -/
noncomputable def mk_placed (comp : Component) (pos : ℝ × ℝ) : PlacedInfo :=
  { position := pos
    type := comp.type
    label := comp.label
    width := comp.width
    height := comp.height
    connected_pins := comp.connected_pins
    bbox := create_bbox_from_position pos.1 pos.2 comp.width comp.height }

/-- The body of the loop of detect_and_resolve_collisions: place one
component against the already adjusted ones and append its record. -/
noncomputable def place_component (chip : BBox)
    (placed : List (String × PlacedInfo)) (entry : String × Component) :
    List (String × PlacedInfo) :=
  placed ++ [(entry.1,
    mk_placed entry.2
      (adjust_position_to_avoid_collision chip placed entry.1 entry.2))]

/-- CollisionDetector.detect_and_resolve_collisions: process the sorted
components in order, starting from an empty adjusted_positions dict. -/
noncomputable def detect_and_resolve_collisions (chip : BBox)
    (components : List (String × Component)) : List (String × PlacedInfo) :=
  (sort_components components).foldl (place_component chip) []

/-- The run of detect_and_resolve_collisions starting from `placed` never
reaches the far-placement fallback on the remaining components: every
component's 50-attempt search finds a collision-free candidate. -/
noncomputable def no_fallback (chip : BBox) :
    List (String × PlacedInfo) → List (String × Component) → Prop
  | _, [] => True
  | placed, entry :: rest =>
    (adjust_search chip placed entry.1 entry.2
        (calculate_optimal_position entry.2) 0 50).isSome = true ∧
      no_fallback chip (place_component chip placed entry) rest

/-- PositionRecorder._check_if_optimal_position: the achieved-ideal flag,
comparing the stored final position with the recomputed estimator output. -/
noncomputable def check_if_optimal_position (comp : Component)
    (info : PlacedInfo) : Prop :=
  Real.sqrt (((calculate_optimal_position comp).1 - info.position.1) ^ 2 +
      ((calculate_optimal_position comp).2 - info.position.2) ^ 2) < 0.5

/-- The overall bounding box computed in
PositionRecorder._calculate_layout_statistics: the Python min/max over the
list of every component bbox's x_min and x_max together with the chip
bbox's, and likewise for y. -/
noncomputable def overall_bounding_box (chip : BBox)
    (placed : List (String × PlacedInfo)) : BBox :=
  { x_min := (placed.map (fun p => p.2.bbox.x_min) ++
        placed.map (fun p => p.2.bbox.x_max)).foldr min
        (min chip.x_min chip.x_max)
    x_max := (placed.map (fun p => p.2.bbox.x_min) ++
        placed.map (fun p => p.2.bbox.x_max)).foldr max
        (max chip.x_min chip.x_max)
    y_min := (placed.map (fun p => p.2.bbox.y_min) ++
        placed.map (fun p => p.2.bbox.y_max)).foldr min
        (min chip.y_min chip.y_max)
    y_max := (placed.map (fun p => p.2.bbox.y_min) ++
        placed.map (fun p => p.2.bbox.y_max)).foldr max
        (max chip.y_min chip.y_max) }

/-- PositionRecorder._calculate_canvas_size: the overall bounding box plus a
margin of 2.0 on every side; returns (canvas_width, canvas_height,
canvas_origin_x, canvas_origin_y), the origin being the top-left corner. -/
noncomputable def calculate_canvas_size (chip : BBox)
    (placed : List (String × PlacedInfo)) : ℝ × ℝ × ℝ × ℝ :=
  let overall := overall_bounding_box chip placed
  let margin : ℝ := 2.0
  (overall.x_max - overall.x_min + 2 * margin,
   overall.y_max - overall.y_min + 2 * margin,
   overall.x_min - margin,
   overall.y_max + margin)

/-- PositionRecorder._convert_to_yolo_format: shift into the canvas frame,
flip the Y axis, normalize by the canvas size, then clamp every value into
[0, 1]. -/
noncomputable def convert_to_yolo_format (x y width height canvas_width
    canvas_height canvas_origin_x canvas_origin_y : ℝ) : ℝ × ℝ × ℝ × ℝ :=
  let canvas_x := x - canvas_origin_x
  let canvas_y := canvas_origin_y - y
  let x_center_norm := canvas_x / canvas_width
  let y_center_norm := canvas_y / canvas_height
  let width_norm := width / canvas_width
  let height_norm := height / canvas_height
  (max 0 (min 1 x_center_norm), max 0 (min 1 y_center_norm),
   max 0 (min 1 width_norm), max 0 (min 1 height_norm))

/-- Every stored bbox in the list was rebuilt from its stored position and
size (true of everything detect_and_resolve_collisions writes). -/
def entry_bbox_consistent (L : List (String × PlacedInfo)) : Prop :=
  ∀ p ∈ L, p.2.bbox =
    create_bbox_from_position p.2.position.1 p.2.position.2 p.2.width p.2.height

/-- The pairwise no-overlap invariant of a resolved layout: no entry's box
overlaps the device box with margin 2, and no two entries with distinct ids
overlap with margin 1. -/
def layout_separated (chip : BBox) (L : List (String × PlacedInfo)) : Prop :=
  ∀ p ∈ L, ¬ check_collision_with_chip chip p.2.bbox 2 ∧
    ∀ q ∈ L, p.1 ≠ q.1 → ¬ check_bbox_collision p.2.bbox q.2.bbox 1

/-- The per-pin anchor point of the spec: look the pin up in the central
device's pin table (unknown pins default to (right, 0.0)) and map its side
and offset to a target point. -/
noncomputable def pin_anchor (pin : ℕ) : ℝ × ℝ :=
  side_target (get_pin_position_on_chip pin).1 (get_pin_position_on_chip pin).2

/-- The spec's union bounding box of the device box and a list of entity
boxes. -/
noncomputable def union_box (chip : BBox) (boxes : List BBox) : BBox :=
  { x_min := (boxes.map BBox.x_min).foldr min chip.x_min
    x_max := (boxes.map BBox.x_max).foldr max chip.x_max
    y_min := (boxes.map BBox.y_min).foldr min chip.y_min
    y_max := (boxes.map BBox.y_max).foldr max chip.y_max }

/-- A geometrically non-degenerate box. -/
def bbox_wf (b : BBox) : Prop :=
  b.x_min ≤ b.x_max ∧ b.y_min ≤ b.y_max

/-- A 200 x 200 central device box centered at the origin (reachable from a
netlist whose chip size entry is 200 x 200). -/
noncomputable def chip_huge : BBox := ⟨-100, 100, -100, 100⟩

/-- A 1 x 1 component with no connected pins. -/
noncomputable def comp_plain : Component :=
  { type := "resistor", label := "R1", width := 1, height := 1,
    connected_pins := [] }

/-- A 0.5 x 0.5 central device box centered at the origin. -/
noncomputable def chip_small : BBox := ⟨-0.25, 0.25, -0.25, 0.25⟩

/-- A 1 x 1 component connected to pin 2 (left, 0.5): ideal position
(-3, 0.75). -/
noncomputable def comp_a : Component :=
  { type := "resistor", label := "R1", width := 1, height := 1,
    connected_pins := [2] }

/-- A 1 x 1 component connected to pin 3 (right, 0.0): ideal position
(3, 0). -/
noncomputable def comp_b : Component :=
  { type := "capacitor", label := "C1", width := 1, height := 1,
    connected_pins := [3] }

/-- A 0 x 0 component connected to pin 5 (right, 1.0): ideal position
(3, 1.5), degenerate geometry. -/
noncomputable def comp_zero : Component :=
  { type := "LED", label := "D1", width := 0, height := 0,
    connected_pins := [5] }

/-- Helper: the overlap predicate unfolded to a positive statement. -/
theorem check_bbox_collision_iff (b1 b2 : BBox) (m : ℝ) :
    check_bbox_collision b1 b2 m ↔
      b2.x_min ≤ b1.x_max + m ∧ b1.x_min ≤ b2.x_max + m ∧
      b2.y_min ≤ b1.y_max + m ∧ b1.y_min ≤ b2.y_max + m := by
  unfold check_bbox_collision
  push_neg
  tauto

/-- Helper: expanding the chip box by the margin on each side and testing
with margin 0, as _check_collision_with_chip does, is equivalent to
applying _check_bbox_collision directly with that margin. -/
theorem chip_check_is_margined_bbox_check (chip bbox : BBox) (m : ℝ) :
    check_collision_with_chip chip bbox m ↔ check_bbox_collision bbox chip m := by
  unfold check_collision_with_chip
  rw [check_bbox_collision_iff, check_bbox_collision_iff]
  dsimp only
  constructor <;> intro h <;>
    exact ⟨by linarith [h.1], by linarith [h.2.1], by linarith [h.2.2.1],
           by linarith [h.2.2.2]⟩

/-- Helper: symmetry of the overlap predicate, shared by later proofs. -/
theorem check_bbox_collision_symm (b1 b2 : BBox) (m : ℝ) :
    check_bbox_collision b1 b2 m ↔ check_bbox_collision b2 b1 m := by
  rw [check_bbox_collision_iff, check_bbox_collision_iff]
  tauto

/-- C10: the bounding-box overlap predicate is symmetric in its two boxes
for every margin, so a one-directional check establishes the relation in
both directions. -/
theorem bbox_collision_symmetric (b1 b2 : BBox) (m : ℝ) :
    check_bbox_collision b1 b2 m ↔ check_bbox_collision b2 b1 m :=
  check_bbox_collision_symm b1 b2 m

/-- C2: every collision check in the resolver is the single bounding-box
predicate: the component-vs-device check — which expands the device box by
its margin and then tests with margin 0 — is equivalent to applying the
predicate directly with that margin (2.0 at its call site), and the full
per-candidate collision test is the margin-2.0 device test together with
the margin-1.0 test against every other already-placed box. -/
theorem every_check_is_single_predicate :
    (∀ (chip b : BBox) (m : ℝ),
      check_collision_with_chip chip b m ↔ check_bbox_collision b chip m) ∧
    ∀ (chip : BBox) (placed : List (String × PlacedInfo)) (selfId : String)
      (b : BBox),
      has_collision chip placed selfId b ↔
        (check_bbox_collision b chip 2 ∨
          ∃ p ∈ placed, p.1 ≠ selfId ∧
            check_bbox_collision b
              (create_bbox_from_position p.2.position.1 p.2.position.2
                p.2.width p.2.height) 1) := by
  refine ⟨chip_check_is_margined_bbox_check, ?_⟩
  intro chip placed selfId b
  unfold has_collision
  rw [chip_check_is_margined_bbox_check]

/-- Helper: when every attempt in the fuel window collides, the search
returns none. -/
theorem adjust_search_eq_none (chip : BBox) (placed : List (String × PlacedInfo))
    (selfId : String) (comp : Component) (anchor : ℝ × ℝ) (a fuel : ℕ)
    (hall : ∀ j, a ≤ j → j < a + fuel →
      has_collision chip placed selfId (test_box comp (candidate anchor j))) :
    adjust_search chip placed selfId comp anchor a fuel = none := by
  induction fuel generalizing a with
  | zero => simp [adjust_search]
  | succ n ih =>
    have hc := hall a le_rfl (by omega)
    simp only [adjust_search]
    rw [if_pos]
    · exact ih (a + 1) fun j hj1 hj2 => hall j (by omega) (by omega)
    · exact hc

/-- Helper: the search returns the first collision-free candidate in its
window. -/
theorem adjust_search_eq_some (chip : BBox) (placed : List (String × PlacedInfo))
    (selfId : String) (comp : Component) (anchor : ℝ × ℝ) (a fuel k : ℕ)
    (hk1 : a ≤ k) (hk2 : k < a + fuel)
    (hfree : ¬ has_collision chip placed selfId (test_box comp (candidate anchor k)))
    (hbefore : ∀ j, a ≤ j → j < k →
      has_collision chip placed selfId (test_box comp (candidate anchor j))) :
    adjust_search chip placed selfId comp anchor a fuel = some (candidate anchor k) := by
  induction fuel generalizing a with
  | zero => omega
  | succ n ih =>
    simp only [adjust_search]
    by_cases hca : has_collision chip placed selfId (test_box comp (candidate anchor a))
    · rw [if_pos hca]
      have hak : a ≠ k := by
        intro h
        exact hfree (h ▸ hca)
      exact ih (a + 1) (by omega) (by omega)
        (fun j hj1 hj2 => hbefore j (by omega) hj2)
    · rw [if_neg hca]
      have : k = a := by
        by_contra h
        exact hca (hbefore a le_rfl (by omega))
      rw [this]

/-- Helper: a position returned by the search is collision-free for this
component against the chip and everything already placed. -/
theorem adjust_search_some_free (chip : BBox) (placed : List (String × PlacedInfo))
    (selfId : String) (comp : Component) (anchor : ℝ × ℝ) (a fuel : ℕ)
    (pos : ℝ × ℝ)
    (h : adjust_search chip placed selfId comp anchor a fuel = some pos) :
    ¬ has_collision chip placed selfId (test_box comp pos) := by
  induction fuel generalizing a with
  | zero => simp [adjust_search] at h
  | succ n ih =>
    simp only [adjust_search] at h
    by_cases hca : has_collision chip placed selfId (test_box comp (candidate anchor a))
    · rw [if_pos hca] at h
      exact ih (a + 1) h
    · rw [if_neg hca] at h
      have : pos = candidate anchor a := by
        cases h
        rfl
      rw [this]
      exact hca

/-- C3: the per-component search tests at most 50 candidates; the first
candidate is the ideal position; the first collision-free candidate is
accepted immediately; and every later candidate is the fixed anchor (the
ideal position) plus an offset of radius 1.0 at angle attempt·45 degrees
for attempt indices 0-7, and radius 1.0·(1 + 0.5·(attempt − 8)) at angle
(attempt·30) mod 360 degrees from index 8 on. -/
theorem search_accepts_first_free_candidate (chip : BBox)
    (placed : List (String × PlacedInfo)) (selfId : String) (comp : Component)
    (k : ℕ) (hk : k < 50)
    (hfree : ¬ has_collision chip placed selfId
      (test_box comp (candidate (calculate_optimal_position comp) k)))
    (hbefore : ∀ j < k, has_collision chip placed selfId
      (test_box comp (candidate (calculate_optimal_position comp) j))) :
    adjust_position_to_avoid_collision chip placed selfId comp =
        candidate (calculate_optimal_position comp) k ∧
      candidate (calculate_optimal_position comp) 0 =
        calculate_optimal_position comp ∧
      ∀ (anchor : ℝ × ℝ) (j : ℕ),
        candidate anchor (j + 1) =
          (anchor.1 +
            (if j < 8 then (1.0 : ℝ) else 1.0 * (1 + ((j - 8 : ℕ) : ℝ) * 0.5)) *
              Real.cos ((if j < 8 then ((j * 45 : ℕ) : ℝ)
                else (((j * 30) % 360 : ℕ) : ℝ)) * Real.pi / 180),
           anchor.2 +
            (if j < 8 then (1.0 : ℝ) else 1.0 * (1 + ((j - 8 : ℕ) : ℝ) * 0.5)) *
              Real.sin ((if j < 8 then ((j * 45 : ℕ) : ℝ)
                else (((j * 30) % 360 : ℕ) : ℝ)) * Real.pi / 180)) := by
  refine ⟨?_, rfl, ?_⟩
  · unfold adjust_position_to_avoid_collision
    rw [adjust_search_eq_some chip placed selfId comp
      (calculate_optimal_position comp) 0 50 k (Nat.zero_le k) (by omega) hfree
      (fun j _ hj => hbefore j hj)]
  · intro anchor j
    simp only [candidate, attempt_offset, attempt_radius, attempt_angle]

/-- C4: when all 50 attempts collide the resolver does not fail; it accepts,
with no further collision check, the far placement keyed off the first
connected pin's side, and (10, 6) for a component with no connected pins. -/
theorem search_exhausted_takes_far_placement (chip : BBox)
    (placed : List (String × PlacedInfo)) (selfId : String) (comp : Component)
    (hall : ∀ j < 50, has_collision chip placed selfId
      (test_box comp (candidate (calculate_optimal_position comp) j))) :
    adjust_position_to_avoid_collision chip placed selfId comp =
        far_position comp ∧
      (comp.connected_pins = [] → far_position comp = (10.0, 6.0)) ∧
      ∀ (pin : ℕ) (rest : List ℕ), comp.connected_pins = pin :: rest →
        far_position comp =
          (match (get_pin_position_on_chip pin).1 with
           | Side.left => (-10.0, (get_pin_position_on_chip pin).2 * 3.0)
           | Side.right => (10.0, (get_pin_position_on_chip pin).2 * 3.0)
           | Side.top => ((get_pin_position_on_chip pin).2 * 3.0, 8.0)
           | Side.bot => ((get_pin_position_on_chip pin).2 * 3.0, -8.0)) := by
  refine ⟨?_, ?_, ?_⟩
  · unfold adjust_position_to_avoid_collision
    rw [adjust_search_eq_none chip placed selfId comp
      (calculate_optimal_position comp) 0 50 (fun j _ hj => hall j hj)]
  · intro h
    simp [far_position, h]
  · intro pin rest h
    simp only [far_position, h]

/-- Helper: the probe radius is nonnegative. -/
theorem attempt_radius_nonneg (j : ℕ) : 0 ≤ attempt_radius j := by
  unfold attempt_radius
  split
  · norm_num
  · have : (0 : ℝ) ≤ ((j - 8 : ℕ) : ℝ) := Nat.cast_nonneg _
    nlinarith

/-- Helper: within the 50-attempt window the probe radius stays below
21.5. -/
theorem attempt_radius_le (j : ℕ) (hj : j < 49) : attempt_radius j ≤ 21.5 := by
  unfold attempt_radius
  split
  · norm_num
  · have h1 : (j - 8 : ℕ) ≤ 40 := by omega
    have h2 : ((j - 8 : ℕ) : ℝ) ≤ 40 := by exact_mod_cast h1
    nlinarith

/-- Helper: each search offset component is bounded by the probe radius
bound. -/
theorem attempt_offset_bound (j : ℕ) (hj : j < 49) :
    |(attempt_offset j).1| ≤ 21.5 ∧ |(attempt_offset j).2| ≤ 21.5 := by
  have hr0 := attempt_radius_nonneg j
  have hr := attempt_radius_le j hj
  constructor
  · have := Real.abs_cos_le_one (attempt_angle j * Real.pi / 180)
    calc |(attempt_offset j).1|
        = |attempt_radius j| * |Real.cos (attempt_angle j * Real.pi / 180)| :=
          abs_mul _ _
      _ ≤ attempt_radius j * 1 := by
          rw [abs_of_nonneg hr0]
          exact mul_le_mul_of_nonneg_left this hr0
      _ ≤ 21.5 := by linarith
  · have := Real.abs_sin_le_one (attempt_angle j * Real.pi / 180)
    calc |(attempt_offset j).2|
        = |attempt_radius j| * |Real.sin (attempt_angle j * Real.pi / 180)| :=
          abs_mul _ _
      _ ≤ attempt_radius j * 1 := by
          rw [abs_of_nonneg hr0]
          exact mul_le_mul_of_nonneg_left this hr0
      _ ≤ 21.5 := by linarith

/-- Helper: every candidate of the 50-attempt window stays within 21.5 of
its anchor in each coordinate. -/
theorem candidate_bound (anchor : ℝ × ℝ) (j : ℕ) (hj : j < 50) :
    |(candidate anchor j).1 - anchor.1| ≤ 21.5 ∧
      |(candidate anchor j).2 - anchor.2| ≤ 21.5 := by
  cases j with
  | zero => simp [candidate]; norm_num
  | succ k =>
    have hb := attempt_offset_bound k (by omega)
    simp only [candidate]
    constructor
    · simpa using hb.1
    · simpa using hb.2

/-- Helper: the estimator output for a component with no connected pins. -/
theorem comp_plain_optimal : calculate_optimal_position comp_plain = (2.0, 2.0) := by
  simp [calculate_optimal_position, comp_plain]

/-- Helper: against the huge chip every one of the 50 candidates of
comp_plain collides, for any placed list and id. -/
theorem chip_huge_all_collide (placed : List (String × PlacedInfo))
    (selfId : String) :
    ∀ j < 50, has_collision chip_huge placed selfId
      (test_box comp_plain (candidate (calculate_optimal_position comp_plain) j)) := by
  intro j hj
  rw [comp_plain_optimal]
  have hb := candidate_bound (2.0, 2.0) j hj
  rcases hb with ⟨hx, hy⟩
  rw [abs_le] at hx hy
  left
  unfold check_collision_with_chip check_bbox_collision chip_huge test_box
    create_bbox_from_position comp_plain
  push_neg
  dsimp only
  norm_num
  constructor
  · linarith [hx.1]
  constructor
  · linarith [hx.2]
  constructor
  · linarith [hy.1]
  · linarith [hy.2]

/-- Witness for C4: with a 200 x 200 device box every attempt for the plain
component collides, and the resolver accepts the no-pins far placement
(10, 6). -/
theorem search_exhausted_takes_far_placement_witness :
    adjust_position_to_avoid_collision chip_huge [] "c1" comp_plain =
      (10.0, 6.0) := by
  have h := search_exhausted_takes_far_placement chip_huge [] "c1" comp_plain
    (chip_huge_all_collide [] "c1")
  rw [h.1]
  exact h.2.1 rfl

/-- Helper: when the search succeeds the resolver returns its candidate. -/
theorem adjust_position_eq_of_search_some (chip : BBox)
    (placed : List (String × PlacedInfo)) (selfId : String) (comp : Component)
    (pos : ℝ × ℝ)
    (h : adjust_search chip placed selfId comp
      (calculate_optimal_position comp) 0 50 = some pos) :
    adjust_position_to_avoid_collision chip placed selfId comp = pos := by
  unfold adjust_position_to_avoid_collision
  rw [h]

/-- Helper: the huge-chip run of the resolver lands on the far placement. -/
theorem chip_huge_far_pos :
    adjust_position_to_avoid_collision chip_huge [] "c1" comp_plain =
      (10.0, 6.0) := by
  unfold adjust_position_to_avoid_collision
  rw [adjust_search_eq_none chip_huge [] "c1" comp_plain
    (calculate_optimal_position comp_plain) 0 50
    (fun j _ hj => chip_huge_all_collide [] "c1" j hj)]
  rfl

/-- Counterexample for C1: after detect_and_resolve_collisions on the huge
chip with the single plain component, the resolved layout contains a
component whose margined bounding box does overlap the device box — the
far-placement fallback is never re-checked, so the no-overlap invariant
fails. -/
theorem no_overlap_invariant_counterexample :
    ∃ p ∈ detect_and_resolve_collisions chip_huge [("c1", comp_plain)],
      check_collision_with_chip chip_huge p.2.bbox 2 := by
  have hL : detect_and_resolve_collisions chip_huge [("c1", comp_plain)] =
      [("c1", mk_placed comp_plain (10.0, 6.0))] := by
    unfold detect_and_resolve_collisions sort_components
    simp only [List.foldl_cons, List.foldl_nil, insert_desc]
    unfold place_component
    rw [chip_huge_far_pos]
    simp
  rw [hL]
  refine ⟨("c1", mk_placed comp_plain (10.0, 6.0)), by simp, ?_⟩
  unfold check_collision_with_chip check_bbox_collision chip_huge mk_placed
    create_bbox_from_position comp_plain
  dsimp only
  norm_num

/-- Helper: placing one component through a successful search preserves
bbox consistency and pairwise separation. -/
theorem place_component_preserves (chip : BBox)
    (placed : List (String × PlacedInfo)) (e : String × Component)
    (hcons : entry_bbox_consistent placed)
    (hsep : layout_separated chip placed)
    (hsome : (adjust_search chip placed e.1 e.2
      (calculate_optimal_position e.2) 0 50).isSome = true) :
    entry_bbox_consistent (place_component chip placed e) ∧
      layout_separated chip (place_component chip placed e) := by
  obtain ⟨pos, hpos⟩ := Option.isSome_iff_exists.mp hsome
  have hfree := adjust_search_some_free chip placed e.1 e.2
    (calculate_optimal_position e.2) 0 50 pos hpos
  have hchip : ¬ check_collision_with_chip chip (test_box e.2 pos) 2 :=
    fun h => hfree (Or.inl h)
  have hplaced : ∀ q ∈ placed, q.1 ≠ e.1 →
      ¬ check_bbox_collision (test_box e.2 pos) q.2.bbox 1 := by
    intro q hq hne hc
    refine hfree (Or.inr ⟨q, hq, hne, ?_⟩)
    rw [← hcons q hq]
    exact hc
  have hadj := adjust_position_eq_of_search_some chip placed e.1 e.2 pos hpos
  have hnewbox : (mk_placed e.2 pos).bbox = test_box e.2 pos := rfl
  unfold place_component
  rw [hadj]
  constructor
  · intro p hp
    rcases List.mem_append.mp hp with hold | hnew
    · exact hcons p hold
    · have : p = (e.1, mk_placed e.2 pos) := by simpa using hnew
      rw [this]
      rfl
  · intro p hp
    rcases List.mem_append.mp hp with hold | hnew
    · refine ⟨(hsep p hold).1, ?_⟩
      intro q hq hne
      rcases List.mem_append.mp hq with hqold | hqnew
      · exact (hsep p hold).2 q hqold hne
      · have hqe : q = (e.1, mk_placed e.2 pos) := by simpa using hqnew
        rw [hqe, hnewbox]
        rw [check_bbox_collision_symm]
        refine hplaced p hold ?_
        rw [hqe] at hne
        exact hne
    · have hpe : p = (e.1, mk_placed e.2 pos) := by simpa using hnew
      rw [hpe, hnewbox]
      refine ⟨hchip, ?_⟩
      intro q hq hne
      rcases List.mem_append.mp hq with hqold | hqnew
      · exact hplaced q hqold (fun h => hne h.symm)
      · have hqe : q = (e.1, mk_placed e.2 pos) := by simpa using hqnew
        rw [hqe] at hne
        exact absurd rfl hne

/-- Helper: the whole fold preserves consistency and separation under the
no-fallback hypothesis. -/
theorem fold_preserves_separation (chip : BBox) :
    ∀ (l : List (String × Component)) (placed : List (String × PlacedInfo)),
      entry_bbox_consistent placed → layout_separated chip placed →
      no_fallback chip placed l →
      entry_bbox_consistent (l.foldl (place_component chip) placed) ∧
        layout_separated chip (l.foldl (place_component chip) placed) := by
  intro l
  induction l with
  | nil => intro placed hc hs _; exact ⟨hc, hs⟩
  | cons e rest ih =>
    intro placed hc hs hnf
    rcases hnf with ⟨hsome, hnfrest⟩
    have hstep := place_component_preserves chip placed e hc hs hsome
    simpa using ih (place_component chip placed e) hstep.1 hstep.2 hnfrest

/-- C1 (amended): after detect_and_resolve_collisions, provided no
component fell through to the far-placement fallback (every 50-attempt
search succeeded), every pair of distinct placed entities is overlap-free
with the resolution margins — margin 2.0 against the device box and margin
1.0 between components.  (As stated, over all inputs, the claim is false:
see the counterexample, where a fallback placement overlaps the device.) -/
theorem resolved_layout_separated (chip : BBox)
    (comps : List (String × Component))
    (hnf : no_fallback chip [] (sort_components comps)) :
    ∀ p ∈ detect_and_resolve_collisions chip comps,
      ¬ check_collision_with_chip chip p.2.bbox 2 ∧
      ∀ q ∈ detect_and_resolve_collisions chip comps,
        p.1 ≠ q.1 → ¬ check_bbox_collision p.2.bbox q.2.bbox 1 := by
  have h := fold_preserves_separation chip (sort_components comps) []
    (by intro p hp; simp at hp)
    (by intro p hp; simp at hp)
    hnf
  exact h.2

/-- Helper: the estimator output for comp_a. -/
theorem comp_a_optimal : calculate_optimal_position comp_a = (-3, 0.75) := by
  unfold calculate_optimal_position comp_a
  norm_num [get_pin_position_on_chip, side_target]

/-- Helper: the estimator output for comp_b. -/
theorem comp_b_optimal : calculate_optimal_position comp_b = (3, 0) := by
  unfold calculate_optimal_position comp_b
  norm_num [get_pin_position_on_chip, side_target]

/-- Helper: comp_a is collision-free at its ideal position against the
small chip with nothing placed yet. -/
theorem comp_a_free_at_ideal :
    ¬ has_collision chip_small [] "a" (test_box comp_a ((-3 : ℝ), (0.75 : ℝ))) := by
  rintro (hchip | ⟨p, hp, -, -⟩)
  · exact hchip (Or.inl (by norm_num [test_box, create_bbox_from_position,
      comp_a, chip_small]))
  · simp at hp

/-- Helper: the search for comp_a returns its ideal position at attempt 0. -/
theorem search_a :
    adjust_search chip_small [] "a" comp_a
      (calculate_optimal_position comp_a) 0 50 = some ((-3 : ℝ), 0.75) := by
  rw [comp_a_optimal]
  exact adjust_search_eq_some chip_small [] "a" comp_a (-3, 0.75) 0 50 0
    le_rfl (by omega) comp_a_free_at_ideal (fun j _ hj => absurd hj (by omega))

/-- Helper: the record written after comp_a is placed. -/
theorem place_a :
    place_component chip_small [] ("a", comp_a) =
      [("a", mk_placed comp_a (-3, 0.75))] := by
  have h := adjust_position_eq_of_search_some chip_small [] "a" comp_a
    ((-3 : ℝ), 0.75) search_a
  simp [place_component, h]

/-- Helper: comp_b is collision-free at its ideal position against the
small chip and the placed comp_a. -/
theorem comp_b_free_at_ideal :
    ¬ has_collision chip_small [("a", mk_placed comp_a (-3, 0.75))] "b"
      (test_box comp_b ((3 : ℝ), (0 : ℝ))) := by
  rintro (hchip | ⟨p, hp, -, hcoll⟩)
  · exact hchip (Or.inr (Or.inl (by norm_num [test_box,
      create_bbox_from_position, comp_b, chip_small])))
  · have hp1 : p = ("a", mk_placed comp_a (-3, 0.75)) := by simpa using hp
    rw [hp1] at hcoll
    exact hcoll (Or.inr (Or.inl (by norm_num [test_box, mk_placed,
      create_bbox_from_position, comp_a, comp_b])))

/-- Helper: comp_b is also collision-free at its ideal position when
nothing is placed. -/
theorem comp_b_free_at_ideal_empty :
    ¬ has_collision chip_small [] "b" (test_box comp_b ((3 : ℝ), (0 : ℝ))) := by
  rintro (hchip | ⟨p, hp, -, -⟩)
  · exact hchip (Or.inr (Or.inl (by norm_num [test_box,
      create_bbox_from_position, comp_b, chip_small])))
  · simp at hp

/-- Helper: the search for comp_b after comp_a is placed returns the ideal
position at attempt 0. -/
theorem search_b :
    adjust_search chip_small [("a", mk_placed comp_a (-3, 0.75))] "b" comp_b
      (calculate_optimal_position comp_b) 0 50 = some ((3 : ℝ), 0) := by
  rw [comp_b_optimal]
  exact adjust_search_eq_some chip_small [("a", mk_placed comp_a (-3, 0.75))]
    "b" comp_b (3, 0) 0 50 0 le_rfl (by omega) comp_b_free_at_ideal
    (fun j _ hj => absurd hj (by omega))

/-- Helper: the two-component list is already in processing order. -/
theorem sort_ab :
    sort_components [("a", comp_a), ("b", comp_b)] =
      [("a", comp_a), ("b", comp_b)] := by
  unfold sort_components
  simp [insert_desc, comp_key, comp_a, comp_b]

/-- Helper: neither comp_a nor comp_b falls back in the two-component
run. -/
theorem no_fallback_ab :
    no_fallback chip_small [] [("a", comp_a), ("b", comp_b)] := by
  refine ⟨?_, ?_, trivial⟩
  · rw [search_a]
    rfl
  · rw [place_a, search_b]
    rfl

/-- Witness for C1 (amended): in the two-component run both searches
succeed and the resolved layout is pairwise separated. -/
theorem resolved_layout_separated_witness :
    no_fallback chip_small [] (sort_components [("a", comp_a), ("b", comp_b)]) ∧
      ∀ p ∈ detect_and_resolve_collisions chip_small
          [("a", comp_a), ("b", comp_b)],
        ¬ check_collision_with_chip chip_small p.2.bbox 2 ∧
        ∀ q ∈ detect_and_resolve_collisions chip_small
            [("a", comp_a), ("b", comp_b)],
          p.1 ≠ q.1 → ¬ check_bbox_collision p.2.bbox q.2.bbox 1 := by
  have hnf : no_fallback chip_small []
      (sort_components [("a", comp_a), ("b", comp_b)]) := by
    rw [sort_ab]
    exact no_fallback_ab
  exact ⟨hnf, resolved_layout_separated chip_small _ hnf⟩

/-- Witness for C3: with the small chip and nothing placed, comp_b's very
first candidate — the ideal position — is collision-free and accepted. -/
theorem search_accepts_first_free_candidate_witness :
    adjust_position_to_avoid_collision chip_small [] "b" comp_b =
      ((3 : ℝ), 0) := by
  have hc0 : candidate (calculate_optimal_position comp_b) 0 =
      ((3 : ℝ), (0 : ℝ)) := by
    rw [show candidate (calculate_optimal_position comp_b) 0 =
      calculate_optimal_position comp_b from rfl, comp_b_optimal]
  have hfree0 : ¬ has_collision chip_small [] "b"
      (test_box comp_b (candidate (calculate_optimal_position comp_b) 0)) := by
    rw [hc0]
    exact comp_b_free_at_ideal_empty
  have h := search_accepts_first_free_candidate chip_small [] "b" comp_b 0
    (by omega) hfree0 (fun j hj => absurd hj (by omega))
  rw [h.1, hc0]

/-- Helper: inserting is a permutation of consing. -/
theorem insert_desc_perm (a : String × Component) (l : List (String × Component)) :
    (insert_desc a l).Perm (a :: l) := by
  induction l with
  | nil => rfl
  | cons b t ih =>
    unfold insert_desc
    split
    · rfl
    · exact ((ih.cons b).trans (List.Perm.swap a b t))

/-- Helper: membership in an insertion. -/
theorem mem_insert_desc (x a : String × Component) (l : List (String × Component)) :
    x ∈ insert_desc a l ↔ x = a ∨ x ∈ l := by
  rw [(insert_desc_perm a l).mem_iff]
  simp

/-- Helper: inserting into a descending-sorted list keeps it sorted. -/
theorem insert_desc_sorted (a : String × Component)
    (l : List (String × Component))
    (h : l.Sorted (fun p q => comp_key q ≤ comp_key p)) :
    (insert_desc a l).Sorted (fun p q => comp_key q ≤ comp_key p) := by
  induction l with
  | nil => simp [insert_desc]
  | cons b t ih =>
    rw [List.sorted_cons] at h
    unfold insert_desc
    split
    · rename_i hlt
      rw [List.sorted_cons]
      refine ⟨?_, List.sorted_cons.mpr h⟩
      intro x hx
      rcases List.mem_cons.mp hx with hxb | hxt
      · rw [hxb]
        exact le_of_lt hlt
      · exact le_trans (h.1 x hxt) (le_of_lt hlt)
    · rename_i hge
      rw [List.sorted_cons]
      refine ⟨?_, ih h.2⟩
      intro x hx
      rcases (mem_insert_desc x a t).mp hx with hxa | hxt
      · rw [hxa]
        omega
      · exact h.1 x hxt

/-- Helper: inserting into a sorted list places the new element after every
element of equal key: the filter at the new element's key gains it at the
end, filters at other keys are unchanged. -/
theorem insert_desc_filter (a : String × Component)
    (l : List (String × Component))
    (h : l.Sorted (fun p q => comp_key q ≤ comp_key p)) (k : ℕ) :
    (insert_desc a l).filter (fun p => comp_key p == k) =
      l.filter (fun p => comp_key p == k) ++
        (if comp_key a = k then [a] else []) := by
  induction l with
  | nil =>
    by_cases hak : comp_key a = k <;> simp [insert_desc, hak]
  | cons b t ih =>
    rw [List.sorted_cons] at h
    unfold insert_desc
    split
    · rename_i hlt
      by_cases hak : comp_key a = k
      · have hnil : (b :: t).filter (fun p => comp_key p == k) = [] := by
          rw [List.filter_eq_nil_iff]
          intro x hx
          have hxb : comp_key x ≤ comp_key b := by
            rcases List.mem_cons.mp hx with hxb | hxt
            · rw [hxb]
            · exact h.1 x hxt
          simp only [beq_iff_eq]
          omega
        rw [hnil]
        simp [hak, hnil]
      · simp only [hak, if_false, List.append_nil]
        simp only [List.filter_cons]
        have hak2 : (comp_key a == k) = false := by
          simp [hak]
        simp [hak2]
    · rename_i hge
      simp only [List.filter_cons]
      rw [ih h.2]
      by_cases hbk : comp_key b = k <;> simp [hbk]

/-- Helper: the fold of insertions, starting from a sorted accumulator,
stays sorted and concatenates filters. -/
theorem foldl_insert_sorted_filter (l : List (String × Component)) :
    ∀ acc : List (String × Component),
      acc.Sorted (fun p q => comp_key q ≤ comp_key p) →
      (l.foldl (fun acc a => insert_desc a acc) acc).Sorted
          (fun p q => comp_key q ≤ comp_key p) ∧
        ∀ k : ℕ,
          (l.foldl (fun acc a => insert_desc a acc) acc).filter
              (fun p => comp_key p == k) =
            acc.filter (fun p => comp_key p == k) ++
              l.filter (fun p => comp_key p == k) := by
  induction l with
  | nil => intro acc hacc; exact ⟨hacc, fun k => by simp⟩
  | cons a t ih =>
    intro acc hacc
    have hstep := ih (insert_desc a acc) (insert_desc_sorted a acc hacc)
    refine ⟨by simpa using hstep.1, ?_⟩
    intro k
    have h1 := hstep.2 k
    simp only [List.foldl_cons]
    rw [h1, insert_desc_filter a acc hacc k, List.filter_cons]
    by_cases hak : comp_key a = k <;> simp [hak]

/-- Helper: sorting permutes the input. -/
theorem sort_components_perm (l : List (String × Component)) :
    (sort_components l).Perm l := by
  unfold sort_components
  suffices h : ∀ acc : List (String × Component),
      (l.foldl (fun acc a => insert_desc a acc) acc).Perm (acc ++ l) by
    simpa using h []
  induction l with
  | nil => intro acc; simp
  | cons a t ih =>
    intro acc
    simp only [List.foldl_cons]
    exact ((ih (insert_desc a acc)).trans
      (((insert_desc_perm a acc).append_right t).trans List.perm_middle.symm))

/-- Helper: processing order of the resolver fold. -/
theorem foldl_place_map_fst (chip : BBox) (l : List (String × Component)) :
    ∀ placed : List (String × PlacedInfo),
      (l.foldl (place_component chip) placed).map Prod.fst =
        placed.map Prod.fst ++ l.map Prod.fst := by
  induction l with
  | nil => intro placed; simp
  | cons a t ih =>
    intro placed
    simp only [List.foldl_cons, List.map_cons]
    rw [ih (place_component chip placed a)]
    unfold place_component
    simp

/-- C6: detect_and_resolve_collisions processes components in the order of
a stable descending sort on the number of connected pins: the placed
records appear in that order; the order is descending on the key;
components of equal key keep their relative input order (the filter at
every key value is unchanged); and the processing order is a permutation of
the input, hence deterministic for a fixed input. -/
theorem processing_order_sorted_stable (chip : BBox)
    (l : List (String × Component)) :
    (detect_and_resolve_collisions chip l).map Prod.fst =
        (sort_components l).map Prod.fst ∧
      (sort_components l).Sorted (fun p q => comp_key q ≤ comp_key p) ∧
      (∀ k : ℕ, (sort_components l).filter (fun p => comp_key p == k) =
        l.filter (fun p => comp_key p == k)) ∧
      (sort_components l).Perm l := by
  have hsf := foldl_insert_sorted_filter l [] (by simp)
  refine ⟨?_, hsf.1, fun k => by simpa using hsf.2 k, sort_components_perm l⟩
  unfold detect_and_resolve_collisions
  rw [foldl_place_map_fst chip (sort_components l) []]
  simp

/-- Helper: a pairwise-accumulating fold is the pair of sums. -/
theorem foldl_add_pair (f : ℕ → ℝ × ℝ) (l : List ℕ) :
    ∀ init : ℝ × ℝ,
      l.foldl (fun acc pin => (acc.1 + (f pin).1, acc.2 + (f pin).2)) init =
        (init.1 + (l.map fun p => (f p).1).sum,
         init.2 + (l.map fun p => (f p).2).sum) := by
  induction l with
  | nil => intro init; simp
  | cons a t ih =>
    intro init
    simp only [List.foldl_cons, List.map_cons, List.sum_cons]
    rw [ih]
    refine Prod.ext ?_ ?_ <;> dsimp <;> ring

/-- C5: the ideal-position estimator returns the fixed default (2, 2) for a
component with no connected pins, and otherwise the arithmetic mean, over
the connected pin numbers, of the per-pin anchor points obtained from the
pin table (left → (−3, offset·1.5), right → (3, offset·1.5),
top → (offset·1.5, 2.5), bottom → (offset·1.5, −2.5), unknown pins
defaulting to (right, 0)). -/
theorem estimator_is_mean_of_pin_anchors (c : Component) :
    (c.connected_pins = [] → calculate_optimal_position c = (2.0, 2.0)) ∧
      (c.connected_pins ≠ [] →
        calculate_optimal_position c =
          ((c.connected_pins.map fun p => (pin_anchor p).1).sum /
              c.connected_pins.length,
           (c.connected_pins.map fun p => (pin_anchor p).2).sum /
              c.connected_pins.length)) := by
  constructor
  · intro h
    simp [calculate_optimal_position, h]
  · intro h
    unfold calculate_optimal_position
    rw [if_neg h]
    have hf := foldl_add_pair pin_anchor c.connected_pins (0, 0)
    simp only [pin_anchor] at hf
    rw [hf]
    simp only [pin_anchor]
    norm_num

/-- Witness for C5: the estimator applied to the pin-2 component comp_a is
the mean of its single anchor point. -/
theorem estimator_is_mean_of_pin_anchors_witness :
    comp_a.connected_pins ≠ [] ∧
      calculate_optimal_position comp_a =
        ((comp_a.connected_pins.map fun p => (pin_anchor p).1).sum /
            comp_a.connected_pins.length,
         (comp_a.connected_pins.map fun p => (pin_anchor p).2).sum /
            comp_a.connected_pins.length) :=
  ⟨by simp [comp_a],
   (estimator_is_mean_of_pin_anchors comp_a).2 (by simp [comp_a])⟩

/-- C9: the achieved-ideal flag of the recorder is true exactly when the
Euclidean distance (here: the metric of the complex plane) between the
stored final position and the recomputed ideal position is strictly below
0.5. -/
theorem achieved_ideal_is_euclidean_ball (comp : Component) (info : PlacedInfo) :
    check_if_optimal_position comp info ↔
      dist (⟨info.position.1, info.position.2⟩ : ℂ)
          (⟨(calculate_optimal_position comp).1,
            (calculate_optimal_position comp).2⟩ : ℂ) < 0.5 := by
  rw [Complex.dist_eq_re_im]
  unfold check_if_optimal_position
  have harg :
      ((⟨info.position.1, info.position.2⟩ : ℂ).re -
          (⟨(calculate_optimal_position comp).1,
            (calculate_optimal_position comp).2⟩ : ℂ).re) ^ 2 +
        ((⟨info.position.1, info.position.2⟩ : ℂ).im -
          (⟨(calculate_optimal_position comp).1,
            (calculate_optimal_position comp).2⟩ : ℂ).im) ^ 2 =
      ((calculate_optimal_position comp).1 - info.position.1) ^ 2 +
        ((calculate_optimal_position comp).2 - info.position.2) ^ 2 := by
    dsimp
    ring
  rw [harg]

/-- Helper: a min-fold is below its base. -/
theorem foldr_min_le_base (l : List ℝ) (b : ℝ) : l.foldr min b ≤ b := by
  induction l with
  | nil => exact le_rfl
  | cons a t ih => exact le_trans (min_le_right _ _) ih

/-- Helper: a min-fold is below every member. -/
theorem foldr_min_le_mem (l : List ℝ) (b x : ℝ) (hx : x ∈ l) :
    l.foldr min b ≤ x := by
  induction l with
  | nil => simp at hx
  | cons a t ih =>
    rcases List.mem_cons.mp hx with hxa | hxt
    · rw [hxa]
      exact min_le_left _ _
    · exact le_trans (min_le_right _ _) (ih hxt)

/-- Helper: a lower bound of the members and the base bounds the min-fold. -/
theorem le_foldr_min (l : List ℝ) (b c : ℝ) (hmem : ∀ x ∈ l, c ≤ x)
    (hb : c ≤ b) : c ≤ l.foldr min b := by
  induction l with
  | nil => exact hb
  | cons a t ih =>
    exact le_min (hmem a (by simp))
      (ih fun x hx => hmem x (List.mem_cons_of_mem a hx))

/-- Helper: a max-fold is above its base. -/
theorem base_le_foldr_max (l : List ℝ) (b : ℝ) : b ≤ l.foldr max b := by
  induction l with
  | nil => exact le_rfl
  | cons a t ih => exact le_trans ih (le_max_right _ _)

/-- Helper: a max-fold is above every member. -/
theorem mem_le_foldr_max (l : List ℝ) (b x : ℝ) (hx : x ∈ l) :
    x ≤ l.foldr max b := by
  induction l with
  | nil => simp at hx
  | cons a t ih =>
    rcases List.mem_cons.mp hx with hxa | hxt
    · rw [hxa]
      exact le_max_left _ _
    · exact le_trans (ih hxt) (le_max_right _ _)

/-- Helper: an upper bound of the members and the base bounds the max-fold. -/
theorem foldr_max_le (l : List ℝ) (b c : ℝ) (hmem : ∀ x ∈ l, x ≤ c)
    (hb : b ≤ c) : l.foldr max b ≤ c := by
  induction l with
  | nil => exact hb
  | cons a t ih =>
    exact max_le (hmem a (by simp))
      (ih fun x hx => hmem x (List.mem_cons_of_mem a hx))

/-- Helper: the Python min over the concatenation of the per-entity minima
and maxima equals the min over the minima alone, when every box is
non-degenerate. -/
theorem foldr_min_append_dominated {α : Type} (l : List α) (f g : α → ℝ)
    (bmin bmax : ℝ) (hb : bmin ≤ bmax) (hfg : ∀ p ∈ l, f p ≤ g p) :
    (l.map f ++ l.map g).foldr min (min bmin bmax) =
      (l.map f).foldr min bmin := by
  apply le_antisymm
  · apply le_foldr_min
    · intro x hx
      exact foldr_min_le_mem _ _ x (List.mem_append_left _ hx)
    · exact le_trans (foldr_min_le_base _ _) (min_le_left _ _)
  · apply le_foldr_min
    · intro x hx
      rcases List.mem_append.mp hx with hxf | hxg
      · exact foldr_min_le_mem _ _ x hxf
      · obtain ⟨p, hp, hpx⟩ := List.mem_map.mp hxg
        rw [← hpx]
        exact le_trans (foldr_min_le_mem _ _ (f p) (List.mem_map_of_mem f hp))
          (hfg p hp)
    · exact le_min (foldr_min_le_base _ _)
        (le_trans (foldr_min_le_base _ _) hb)

/-- Helper: the dual statement for the Python max. -/
theorem foldr_max_append_dominated {α : Type} (l : List α) (f g : α → ℝ)
    (bmin bmax : ℝ) (hb : bmin ≤ bmax) (hfg : ∀ p ∈ l, f p ≤ g p) :
    (l.map f ++ l.map g).foldr max (max bmin bmax) =
      (l.map g).foldr max bmax := by
  apply le_antisymm
  · apply foldr_max_le
    · intro x hx
      rcases List.mem_append.mp hx with hxf | hxg
      · obtain ⟨p, hp, hpx⟩ := List.mem_map.mp hxf
        rw [← hpx]
        exact le_trans (hfg p hp)
          (mem_le_foldr_max _ _ (g p) (List.mem_map_of_mem g hp))
      · exact mem_le_foldr_max _ _ x hxg
    · exact max_le (le_trans hb (base_le_foldr_max _ _)) (base_le_foldr_max _ _)
  · apply foldr_max_le
    · intro x hx
      exact mem_le_foldr_max _ _ x (List.mem_append_right _ hx)
    · exact le_trans (le_max_right _ _) (base_le_foldr_max _ _)

/-- C7: the canvas frame is the union bounding box of the device and all
placed components expanded by the 2.0 margin on every side (width/height =
union span + 2·margin, origin at the expanded union's top-left, with the
origin's y at the top because the export flips the Y axis); and the
normalized annotation of any entity is cx = (x − origin_x)/canvas_w,
cy = (origin_y − y)/canvas_h, w = width/canvas_w, h = height/canvas_h, each
clamped into [0, 1] afterwards. -/
theorem canvas_frame_and_normalization (chip : BBox)
    (placed : List (String × PlacedInfo))
    (hchip : bbox_wf chip)
    (hplaced : ∀ p ∈ placed, bbox_wf p.2.bbox) :
    calculate_canvas_size chip placed =
        ((union_box chip (placed.map fun p => p.2.bbox)).x_max -
            (union_box chip (placed.map fun p => p.2.bbox)).x_min + 2 * 2.0,
         (union_box chip (placed.map fun p => p.2.bbox)).y_max -
            (union_box chip (placed.map fun p => p.2.bbox)).y_min + 2 * 2.0,
         (union_box chip (placed.map fun p => p.2.bbox)).x_min - 2.0,
         (union_box chip (placed.map fun p => p.2.bbox)).y_max + 2.0) ∧
      ∀ x y w h cw ch ox oy : ℝ,
        convert_to_yolo_format x y w h cw ch ox oy =
            (max 0 (min 1 ((x - ox) / cw)), max 0 (min 1 ((oy - y) / ch)),
             max 0 (min 1 (w / cw)), max 0 (min 1 (h / ch))) ∧
          (convert_to_yolo_format x y w h cw ch ox oy).1 ∈ Set.Icc (0 : ℝ) 1 ∧
          (convert_to_yolo_format x y w h cw ch ox oy).2.1 ∈ Set.Icc (0 : ℝ) 1 ∧
          (convert_to_yolo_format x y w h cw ch ox oy).2.2.1 ∈
            Set.Icc (0 : ℝ) 1 ∧
          (convert_to_yolo_format x y w h cw ch ox oy).2.2.2 ∈
            Set.Icc (0 : ℝ) 1 := by
  constructor
  · have hxm := foldr_min_append_dominated placed
      (fun p => p.2.bbox.x_min) (fun p => p.2.bbox.x_max)
      chip.x_min chip.x_max hchip.1 (fun p hp => (hplaced p hp).1)
    have hxM := foldr_max_append_dominated placed
      (fun p => p.2.bbox.x_min) (fun p => p.2.bbox.x_max)
      chip.x_min chip.x_max hchip.1 (fun p hp => (hplaced p hp).1)
    have hym := foldr_min_append_dominated placed
      (fun p => p.2.bbox.y_min) (fun p => p.2.bbox.y_max)
      chip.y_min chip.y_max hchip.2 (fun p hp => (hplaced p hp).2)
    have hyM := foldr_max_append_dominated placed
      (fun p => p.2.bbox.y_min) (fun p => p.2.bbox.y_max)
      chip.y_min chip.y_max hchip.2 (fun p hp => (hplaced p hp).2)
    unfold calculate_canvas_size overall_bounding_box union_box
    simp only [List.map_map]
    rw [hxm, hxM, hym, hyM]
    rfl
  · intro x y w h cw ch ox oy
    refine ⟨rfl, ?_, ?_, ?_, ?_⟩ <;>
      exact Set.mem_Icc.mpr ⟨le_max_left 0 _,
        max_le (by norm_num) (min_le_left 1 _)⟩

/-- Witness for C7: the canvas of the small chip plus the placed comp_a. -/
theorem canvas_frame_and_normalization_witness :
    calculate_canvas_size chip_small [("a", mk_placed comp_a (-3, 0.75))] =
      ((7.75 : ℝ), (5.5 : ℝ), (-5.5 : ℝ), (3.25 : ℝ)) := by
  have h := canvas_frame_and_normalization chip_small
    [("a", mk_placed comp_a (-3, 0.75))]
    ⟨by norm_num [chip_small], by norm_num [chip_small]⟩
    (by
      intro p hp
      have hp1 : p = ("a", mk_placed comp_a (-3, 0.75)) := by simpa using hp
      rw [hp1]
      exact ⟨by norm_num [mk_placed, comp_a, create_bbox_from_position],
        by norm_num [mk_placed, comp_a, create_bbox_from_position]⟩)
  rw [h.1]
  norm_num [union_box, mk_placed, comp_a, create_bbox_from_position, chip_small]

/-- Helper: the estimator output for the zero-size component. -/
theorem comp_zero_optimal : calculate_optimal_position comp_zero = (3, 1.5) := by
  unfold calculate_optimal_position comp_zero
  norm_num [get_pin_position_on_chip, side_target]

/-- Helper: the zero-size component is collision-free at its ideal
position. -/
theorem comp_zero_free_at_ideal :
    ¬ has_collision chip_small [] "d" (test_box comp_zero ((3 : ℝ), (1.5 : ℝ))) := by
  rintro (hchip | ⟨p, hp, -, -⟩)
  · exact hchip (Or.inr (Or.inl (by norm_num [test_box,
      create_bbox_from_position, comp_zero, chip_small])))
  · simp at hp

/-- Helper: the search accepts the zero-size component at attempt 0. -/
theorem search_zero :
    adjust_search chip_small [] "d" comp_zero
      (calculate_optimal_position comp_zero) 0 50 = some ((3 : ℝ), 1.5) := by
  rw [comp_zero_optimal]
  exact adjust_search_eq_some chip_small [] "d" comp_zero (3, 1.5) 0 50 0
    le_rfl (by omega) comp_zero_free_at_ideal (fun j _ hj => absurd hj (by omega))

/-- Counterexample for C8: a component with non-positive width and height
is not rejected; detect_and_resolve_collisions runs to completion and
returns a complete layout containing it, so no InvalidGeometry failure
exists. -/
theorem invalid_geometry_counterexample :
    comp_zero.width = 0 ∧ comp_zero.height = 0 ∧
      detect_and_resolve_collisions chip_small [("d", comp_zero)] =
        [("d", mk_placed comp_zero (3, 1.5))] := by
  refine ⟨rfl, rfl, ?_⟩
  have hpos := adjust_position_eq_of_search_some chip_small [] "d" comp_zero
    ((3 : ℝ), 1.5) search_zero
  unfold detect_and_resolve_collisions sort_components
  simp only [List.foldl_cons, List.foldl_nil, insert_desc]
  unfold place_component
  rw [hpos]
  simp

/-- C8 (amended): the resolver performs no geometry validation at all —
for every input, including components with non-positive width or height,
it runs to completion and returns exactly one placed record per input
component (as a permutation of the input ids); it never fails. -/
theorem resolver_accepts_all_geometry (chip : BBox)
    (comps : List (String × Component)) :
    ((detect_and_resolve_collisions chip comps).map Prod.fst).Perm
      (comps.map Prod.fst) := by
  unfold detect_and_resolve_collisions
  rw [foldl_place_map_fst chip (sort_components comps) []]
  simpa using (sort_components_perm comps).map Prod.fst

end CircuitLayout
